import Mathlib

/-!
Shallow embedding of the align3d repository's geometric core, together with
theorems checking the specification's claims against it.

Numeric model: the Rust code computes over `f32`.  We embed the arithmetic
over an arbitrary `LinearOrderedField` (instantiated with `ℚ` or `ℝ` in
concrete statements), treating `f32` operations as exact field operations.
The transcendental operations `sqrt`, `sin`, `cos` are passed in as explicit
function parameters so that every definition stays computable; theorems that
depend on their defining properties take those properties as hypotheses (or
instantiate them with `Real.sqrt`, `Real.sin`, `Real.cos`).  As usual in a
field-valued shallow embedding, division by zero denotes `0`.
-/

namespace Align3d

/-- 3D vector with named components, the embedding of `nalgebra::Vector3<f32>`. -/
@[ext] structure Vec3 (α : Type) where
  x : α
  y : α
  z : α
deriving DecidableEq, Repr

namespace Vec3

variable {α : Type} [LinearOrderedField α]

instance : Zero (Vec3 α) := ⟨⟨0, 0, 0⟩⟩

instance : Add (Vec3 α) := ⟨fun a b => ⟨a.x + b.x, a.y + b.y, a.z + b.z⟩⟩

instance : Sub (Vec3 α) := ⟨fun a b => ⟨a.x - b.x, a.y - b.y, a.z - b.z⟩⟩

instance : Neg (Vec3 α) := ⟨fun a => ⟨-a.x, -a.y, -a.z⟩⟩

instance : SMul α (Vec3 α) := ⟨fun s a => ⟨s * a.x, s * a.y, s * a.z⟩⟩

/-- `nalgebra`'s `Vector3::dot`. -/
def dot (a b : Vec3 α) : α := a.x * b.x + a.y * b.y + a.z * b.z

/-- `nalgebra`'s `Vector3::cross`. -/
def cross (a b : Vec3 α) : Vec3 α :=
  ⟨a.y * b.z - a.z * b.y, a.z * b.x - a.x * b.z, a.x * b.y - a.y * b.x⟩

/-- `nalgebra`'s `Vector3::norm_squared`: the dot product with itself. -/
def normSq (a : Vec3 α) : α := a.dot a

theorem zero_def : (0 : Vec3 α) = ⟨0, 0, 0⟩ := rfl

theorem add_def (a b : Vec3 α) : a + b = ⟨a.x + b.x, a.y + b.y, a.z + b.z⟩ := rfl

theorem sub_def (a b : Vec3 α) : a - b = ⟨a.x - b.x, a.y - b.y, a.z - b.z⟩ := rfl

theorem neg_def (a : Vec3 α) : -a = ⟨-a.x, -a.y, -a.z⟩ := rfl

theorem smul_def (s : α) (a : Vec3 α) : s • a = ⟨s * a.x, s * a.y, s * a.z⟩ := rfl

theorem normSq_nonneg (a : Vec3 α) : 0 ≤ a.normSq := by
  simp only [normSq, dot]
  nlinarith [sq_nonneg a.x, sq_nonneg a.y, sq_nonneg a.z]

end Vec3

/-- Quaternion with scalar part `w` and vector part `(x, y, z)`, the embedding
of `nalgebra::Quaternion<f32>` (`Quaternion::new(w, i, j, k)` order). -/
@[ext] structure Quat (α : Type) where
  w : α
  x : α
  y : α
  z : α
deriving DecidableEq, Repr

namespace Quat

variable {α : Type} [LinearOrderedField α]

instance : Zero (Quat α) := ⟨⟨0, 0, 0, 0⟩⟩

/-- The identity quaternion `(1, 0, 0, 0)`. -/
def one : Quat α := ⟨1, 0, 0, 0⟩

/-- The vector (imaginary) part. -/
def vec (q : Quat α) : Vec3 α := ⟨q.x, q.y, q.z⟩

/-- Hamilton product, the embedding of `nalgebra`'s quaternion multiplication. -/
def mul (p q : Quat α) : Quat α :=
  ⟨p.w * q.w - p.x * q.x - p.y * q.y - p.z * q.z,
   p.w * q.x + p.x * q.w + p.y * q.z - p.z * q.y,
   p.w * q.y - p.x * q.z + p.y * q.w + p.z * q.x,
   p.w * q.z + p.x * q.y - p.y * q.x + p.z * q.w⟩

/-- Quaternion conjugate; `nalgebra`'s `UnitQuaternion::inverse` conjugates. -/
def conj (q : Quat α) : Quat α := ⟨q.w, -q.x, -q.y, -q.z⟩

/-- Squared norm `w² + x² + y² + z²`. -/
def normSq (q : Quat α) : α := q.w * q.w + q.x * q.x + q.y * q.y + q.z * q.z

/-- `nalgebra`'s `UnitQuaternion::from_quaternion`, which divides the
quaternion by its norm (`q.normalize()`).  The norm is `sqrtf` of the squared
norm; `sqrtf` is the explicit model of `f32::sqrt`. -/
def normalize (sqrtf : α → α) (q : Quat α) : Quat α :=
  let n := sqrtf q.normSq
  ⟨q.w / n, q.x / n, q.y / n, q.z / n⟩

/-- Rotation action of a quaternion on a vector, the embedding of `nalgebra`'s
`UnitQuaternion<f32> * Vector3<f32>`:
`t = 2 * q.vector().cross(v); v + q.scalar() * t + q.vector().cross(t)`. -/
def rotate (q : Quat α) (v : Vec3 α) : Vec3 α :=
  let t := (2 : α) • (q.vec.cross v)
  v + q.w • t + q.vec.cross t

theorem zero_quat_def : (0 : Quat α) = ⟨0, 0, 0, 0⟩ := rfl

theorem quatNormSq_nonneg (q : Quat α) : 0 ≤ q.normSq := by
  simp only [normSq]
  nlinarith [sq_nonneg q.w, sq_nonneg q.x, sq_nonneg q.y, sq_nonneg q.z]

theorem normSq_eq_zero_iff (q : Quat α) : q.normSq = 0 ↔ q = 0 := by
  constructor
  · intro h
    simp only [normSq] at h
    have hw : q.w = 0 := mul_self_eq_zero.mp (le_antisymm
      (by linarith [mul_self_nonneg q.x, mul_self_nonneg q.y, mul_self_nonneg q.z])
      (mul_self_nonneg q.w))
    have hx : q.x = 0 := mul_self_eq_zero.mp (le_antisymm
      (by linarith [mul_self_nonneg q.w, mul_self_nonneg q.y, mul_self_nonneg q.z])
      (mul_self_nonneg q.x))
    have hy : q.y = 0 := mul_self_eq_zero.mp (le_antisymm
      (by linarith [mul_self_nonneg q.w, mul_self_nonneg q.x, mul_self_nonneg q.z])
      (mul_self_nonneg q.y))
    have hz : q.z = 0 := mul_self_eq_zero.mp (le_antisymm
      (by linarith [mul_self_nonneg q.w, mul_self_nonneg q.x, mul_self_nonneg q.y])
      (mul_self_nonneg q.z))
    cases q
    simp_all [zero_quat_def]
  · intro h
    subst h
    simp [zero_quat_def, normSq]

/-- Rotation by any quaternion whose squared norm is 1 preserves the squared
Euclidean norm of every vector. -/
theorem rotate_normSq (q : Quat α) (v : Vec3 α) (h : q.normSq = 1) :
    (q.rotate v).normSq = v.normSq := by
  simp only [rotate, vec, Vec3.cross, Vec3.smul_def, Vec3.add_def, Vec3.normSq, Vec3.dot,
    normSq] at *
  linear_combination (4 * (q.x * q.x + q.y * q.y + q.z * q.z) * (v.x * v.x + v.y * v.y + v.z * v.z)
    - 4 * (q.x * v.x + q.y * v.y + q.z * v.z) ^ 2) * h

/-- Rotation is additive in the vector argument. -/
theorem rotate_sub (q : Quat α) (a b : Vec3 α) :
    q.rotate (a - b) = q.rotate a - q.rotate b := by
  simp only [rotate, vec, Vec3.cross, Vec3.smul_def, Vec3.add_def, Vec3.sub_def]
  refine Vec3.ext ?_ ?_ ?_ <;> ring

/-- The zero quaternion acts as the identity under the `rotate` formula. -/
theorem rotate_zero (v : Vec3 α) : (0 : Quat α).rotate v = v := by
  simp only [zero_quat_def, rotate, vec, Vec3.cross, Vec3.smul_def, Vec3.add_def]
  refine Vec3.ext ?_ ?_ ?_ <;> ring

/-- `normSq` is multiplicative (Euler's four-square identity). -/
theorem normSq_mul (p q : Quat α) : (p.mul q).normSq = p.normSq * q.normSq := by
  simp only [mul, normSq]
  ring

theorem normSq_conj (q : Quat α) : q.conj.normSq = q.normSq := by
  simp only [conj, normSq]
  ring

/-- Normalizing a nonzero quaternion yields a unit quaternion, provided the
square-root model is exact at its squared norm. -/
theorem normalize_normSq (sqrtf : α → α) (q : Quat α) (hq : q ≠ 0)
    (hs : sqrtf q.normSq * sqrtf q.normSq = q.normSq) :
    (q.normalize sqrtf).normSq = 1 := by
  have hne : q.normSq ≠ 0 := fun h => hq ((normSq_eq_zero_iff q).mp h)
  have hn : sqrtf q.normSq ≠ 0 := by
    intro h
    rw [h] at hs
    exact hne (by linarith)
  have hdiv : (q.normalize sqrtf).normSq = q.normSq / (sqrtf q.normSq * sqrtf q.normSq) := by
    simp only [normalize, normSq]
    field_simp
  rw [hdiv, hs, div_self hne]

end Quat

/-- The embedding of `Transform` (`src/transform.rs`), backed by
`nalgebra::Isometry3<f32>`: a rotation stored as a quaternion plus a
translation vector. -/
@[ext] structure Transform (α : Type) where
  rot : Quat α
  trans : Vec3 α
deriving DecidableEq, Repr

namespace Transform

variable {α : Type} [LinearOrderedField α]

/-- `Transform::eye`: zero translation and the identity rotation
(`UnitQuaternion::new(Vector3::zeros())` is exactly the identity). -/
def eye : Transform α := ⟨Quat.one, 0⟩

/-- `Transform::new`: stores the translation and normalizes the supplied
quaternion via `UnitQuaternion::from_quaternion`. -/
def new (sqrtf : α → α) (xyz : Vec3 α) (rotation : Quat α) : Transform α :=
  ⟨rotation.normalize sqrtf, xyz⟩

/-- `Transform::transform_vector`: rotate then translate. -/
def transform_vector (t : Transform α) (rhs : Vec3 α) : Vec3 α :=
  t.rot.rotate rhs + t.trans

/-- `Transform::transform_normal`: only the rotation part is applied. -/
def transform_normal (t : Transform α) (rhs : Vec3 α) : Vec3 α :=
  t.rot.rotate rhs

/-- `Transform::inverse`, via `Isometry3::inverse`: the rotation is replaced
by its inverse (conjugate) and the translation by the inverse rotation applied
to the negated translation. -/
def inverse (t : Transform α) : Transform α :=
  ⟨t.rot.conj, t.rot.conj.rotate (-t.trans)⟩

/-- Composition `&Transform * &Transform`, via `Isometry3 * Isometry3`:
`(R₁, t₁) ∘ (R₂, t₂) = (R₁R₂, t₁ + R₁ t₂)` (`rhs` is applied first). -/
def mul (t1 t2 : Transform α) : Transform α :=
  ⟨t1.rot.mul t2.rot, t1.trans + t1.rot.rotate t2.trans⟩

end Transform

/-- 3×3 matrix, the embedding of `nalgebra::Matrix3<f32>`. -/
@[ext] structure Mat3 (α : Type) where
  m00 : α
  m01 : α
  m02 : α
  m10 : α
  m11 : α
  m12 : α
  m20 : α
  m21 : α
  m22 : α
deriving DecidableEq, Repr

namespace Mat3

variable {α : Type} [LinearOrderedField α]

/-- `Matrix3::identity()`. -/
def identity : Mat3 α := ⟨1, 0, 0, 0, 1, 0, 0, 0, 1⟩

instance : Add (Mat3 α) :=
  ⟨fun a b => ⟨a.m00 + b.m00, a.m01 + b.m01, a.m02 + b.m02,
               a.m10 + b.m10, a.m11 + b.m11, a.m12 + b.m12,
               a.m20 + b.m20, a.m21 + b.m21, a.m22 + b.m22⟩⟩

instance : SMul α (Mat3 α) :=
  ⟨fun s a => ⟨s * a.m00, s * a.m01, s * a.m02,
               s * a.m10, s * a.m11, s * a.m12,
               s * a.m20, s * a.m21, s * a.m22⟩⟩

/-- Matrix product. -/
instance : Mul (Mat3 α) :=
  ⟨fun a b =>
    ⟨a.m00 * b.m00 + a.m01 * b.m10 + a.m02 * b.m20,
     a.m00 * b.m01 + a.m01 * b.m11 + a.m02 * b.m21,
     a.m00 * b.m02 + a.m01 * b.m12 + a.m02 * b.m22,
     a.m10 * b.m00 + a.m11 * b.m10 + a.m12 * b.m20,
     a.m10 * b.m01 + a.m11 * b.m11 + a.m12 * b.m21,
     a.m10 * b.m02 + a.m11 * b.m12 + a.m12 * b.m22,
     a.m20 * b.m00 + a.m21 * b.m10 + a.m22 * b.m20,
     a.m20 * b.m01 + a.m21 * b.m11 + a.m22 * b.m21,
     a.m20 * b.m02 + a.m21 * b.m12 + a.m22 * b.m22⟩⟩

/-- Matrix-vector product. -/
def mulVec (a : Mat3 α) (v : Vec3 α) : Vec3 α :=
  ⟨a.m00 * v.x + a.m01 * v.y + a.m02 * v.z,
   a.m10 * v.x + a.m11 * v.y + a.m12 * v.z,
   a.m20 * v.x + a.m21 * v.y + a.m22 * v.z⟩

/-- `nalgebra`'s `Vector3::cross_matrix`: the skew-symmetric matrix `Ω` with
`Ω u = ω × u`. -/
def crossMatrix (w : Vec3 α) : Mat3 α :=
  ⟨0, -w.z, w.y,
   w.z, 0, -w.x,
   -w.y, w.x, 0⟩

end Mat3

/-- 6-vector `[x, y, z, rx, ry, rz]`, the embedding of `nalgebra::Vector6<f32>`
as consumed by `Transform::se3_exp`. -/
@[ext] structure Vec6 (α : Type) where
  x : α
  y : α
  z : α
  rx : α
  ry : α
  rz : α
deriving DecidableEq, Repr

namespace Transform

variable {α : Type} [LinearOrderedField α]

/-- `Transform::se3_exp` (`src/transform.rs`): the SE(3) exponential map from a
6D tangent vector.  `sqrtf`, `sinf`, `cosf` are the explicit models of the
`f32` operations; the constant `EPSILON = 1e-8` is idealized as the exact
rational `1 / 10^8`.  The code's `big_omega * 0.5` and `0.5 * theta` are
written as halving scalar products. -/
def se3_exp (sqrtf sinf cosf : α → α) (xyz_so3 : Vec6 α) : Transform α :=
  let EPSILON : α := 1 / 100000000
  let omega : Vec3 α := ⟨xyz_so3.rx, xyz_so3.ry, xyz_so3.rz⟩
  let theta_sq : α := omega.normSq
  let tir : α × α × α :=
    if theta_sq < EPSILON * EPSILON then
      let theta_po4 := theta_sq * theta_sq
      (0, 1 / 2 - 1 / 48 * theta_sq + 1 / 3840 * theta_po4,
       1 - 1 / 8 * theta_sq + 1 / 384 * theta_po4)
    else
      let theta := sqrtf theta_sq
      let half_theta := 1 / 2 * theta
      (theta, sinf half_theta / theta, cosf half_theta)
  let theta := tir.1
  let imag_factor := tir.2.1
  let real_factor := tir.2.2
  let quat := Quat.normalize sqrtf
    ⟨real_factor, imag_factor * omega.x, imag_factor * omega.y, imag_factor * omega.z⟩
  let big_omega := Mat3.crossMatrix omega
  let left_jacobian : Mat3 α :=
    if theta_sq < EPSILON then
      Mat3.identity + (1 / 2 : α) • big_omega
    else
      Mat3.identity + ((1 - cosf theta) / theta_sq) • big_omega
        + ((theta - sinf theta) / (theta_sq * theta)) • (big_omega * big_omega)
  ⟨quat, left_jacobian.mulVec ⟨xyz_so3.x, xyz_so3.y, xyz_so3.z⟩⟩

/-- The operative content of the rigid-transform invariant:
`transform_normal` preserves the squared Euclidean norm of every vector and
`transform_vector` preserves the squared distance between every pair of
points. -/
def NormPreserving (t : Transform α) : Prop :=
  (∀ v : Vec3 α, (t.transform_normal v).normSq = v.normSq) ∧
  (∀ p q : Vec3 α, (t.transform_vector p - t.transform_vector q).normSq = (p - q).normSq)

end Transform

/-- A quaternion is either a unit quaternion or the zero quaternion.  This is
the invariant maintained by every rotation the library constructs: nalgebra's
`UnitQuaternion` is unit by construction, and the zero case models
normalizing the zero quaternion (division by zero denotes 0 in the embedding). -/
def Quat.UnitOrZero {α : Type} [LinearOrderedField α] (q : Quat α) : Prop :=
  q.normSq = 1 ∨ q = 0

variable {α : Type} [LinearOrderedField α]

theorem Quat.rotate_normSq_of_unitOrZero (q : Quat α) (v : Vec3 α) (h : q.UnitOrZero) :
    (q.rotate v).normSq = v.normSq := by
  rcases h with h | h
  · exact q.rotate_normSq v h
  · rw [h, Quat.rotate_zero]

theorem Transform.normPreserving_of_unitOrZero (t : Transform α) (h : t.rot.UnitOrZero) :
    t.NormPreserving := by
  constructor
  · intro v
    exact t.rot.rotate_normSq_of_unitOrZero v h
  · intro p q
    have hsub : t.transform_vector p - t.transform_vector q = t.rot.rotate (p - q) := by
      simp only [Transform.transform_vector, Quat.rotate_sub]
      refine Vec3.ext ?_ ?_ ?_ <;> simp [Vec3.add_def, Vec3.sub_def]
    rw [hsub]
    exact t.rot.rotate_normSq_of_unitOrZero (p - q) h

/-- The transforms constructible through the library's public constructors.
The `from_matrix4` case models the contract of the external `nalgebra`
conversion (`Rotation3::from_matrix` followed by
`UnitQuaternion::from_rotation_matrix`), which produces a unit rotation
quaternion from the upper-left 3×3 block. -/
inductive Constructible (sqrtf sinf cosf : α → α) : Transform α → Prop
  | eye : Constructible sqrtf sinf cosf Transform.eye
  | new (xyz : Vec3 α) (q : Quat α) :
      Constructible sqrtf sinf cosf (Transform.new sqrtf xyz q)
  | se3_exp (v : Vec6 α) :
      Constructible sqrtf sinf cosf (Transform.se3_exp sqrtf sinf cosf v)
  | from_matrix4 (q : Quat α) (xyz : Vec3 α) (h : q.normSq = 1) :
      Constructible sqrtf sinf cosf ⟨q, xyz⟩
  | inverse (t : Transform α) :
      Constructible sqrtf sinf cosf t → Constructible sqrtf sinf cosf t.inverse
  | mul (t1 t2 : Transform α) :
      Constructible sqrtf sinf cosf t1 → Constructible sqrtf sinf cosf t2 →
      Constructible sqrtf sinf cosf (t1.mul t2)

theorem Quat.mul_zero_left (q : Quat α) : Quat.mul 0 q = 0 := by
  simp only [Quat.zero_quat_def, Quat.mul]
  refine Quat.ext ?_ ?_ ?_ ?_ <;> ring

theorem Quat.mul_zero_right (q : Quat α) : q.mul 0 = 0 := by
  simp only [Quat.zero_quat_def, Quat.mul]
  refine Quat.ext ?_ ?_ ?_ ?_ <;> ring

theorem Quat.normalize_zero (sqrtf : α → α) :
    (0 : Quat α).normalize sqrtf = 0 := by
  simp [Quat.normalize, Quat.zero_quat_def]

/-- Every constructible transform carries a unit (or degenerate-zero) rotation
quaternion, given exact models of `sqrt`, `sin` and `cos`. -/
theorem Constructible.unitOrZero {sqrtf sinf cosf : α → α}
    (hsq : ∀ a : α, 0 ≤ a → sqrtf a * sqrtf a = a)
    (hpy : ∀ a : α, sinf a * sinf a + cosf a * cosf a = 1)
    {t : Transform α} (h : Constructible sqrtf sinf cosf t) : t.rot.UnitOrZero := by
  induction h with
  | eye =>
      left
      simp [Transform.eye, Quat.one, Quat.normSq]
  | new xyz q =>
      by_cases hq : q = 0
      · right
        simp [Transform.new, hq, Quat.normalize_zero sqrtf]
      · left
        exact Quat.normalize_normSq sqrtf q hq (hsq _ q.quatNormSq_nonneg)
  | se3_exp v =>
      left
      set EPSILON : α := 1 / 100000000 with hEPS
      set omega : Vec3 α := ⟨v.rx, v.ry, v.rz⟩ with homega
      set theta_sq : α := omega.normSq with hts
      have hts0 : 0 ≤ theta_sq := omega.normSq_nonneg
      by_cases hbr : theta_sq < EPSILON * EPSILON
      · -- Taylor branch: the pre-normalization quaternion has positive scalar part.
        have hw : (0 : α) < 1 - 1 / 8 * theta_sq + 1 / 384 * (theta_sq * theta_sq) := by
          have h1 : theta_sq < 1 := by
            have : EPSILON * EPSILON ≤ 1 := by rw [hEPS]; norm_num
            linarith
          nlinarith [mul_self_nonneg theta_sq]
        have hne : (⟨1 - 1 / 8 * theta_sq + 1 / 384 * (theta_sq * theta_sq),
            (1 / 2 - 1 / 48 * theta_sq + 1 / 3840 * (theta_sq * theta_sq)) * omega.x,
            (1 / 2 - 1 / 48 * theta_sq + 1 / 3840 * (theta_sq * theta_sq)) * omega.y,
            (1 / 2 - 1 / 48 * theta_sq + 1 / 3840 * (theta_sq * theta_sq)) * omega.z⟩ :
            Quat α) ≠ 0 := by
          intro hcon
          rw [Quat.zero_quat_def] at hcon
          have := congrArg Quat.w hcon
          simp at this
          linarith
        have := Quat.normalize_normSq sqrtf _ hne (hsq _ (Quat.quatNormSq_nonneg _))
        simpa [Transform.se3_exp, ← hEPS, ← homega, ← hts, if_pos hbr] using this
      · -- exact branch: the pre-normalization quaternion is exactly unit.
        have htpos : 0 < theta_sq := by
          have : (0 : α) < EPSILON * EPSILON := by rw [hEPS]; norm_num
          push_neg at hbr
          linarith
        have hθ : sqrtf theta_sq * sqrtf theta_sq = theta_sq := hsq _ hts0
        have hθne : sqrtf theta_sq ≠ 0 := by
          intro hcon
          rw [hcon, mul_zero] at hθ
          exact absurd hθ.symm (ne_of_gt htpos)
        have hnorm : (⟨cosf (1 / 2 * sqrtf theta_sq),
            sinf (1 / 2 * sqrtf theta_sq) / sqrtf theta_sq * omega.x,
            sinf (1 / 2 * sqrtf theta_sq) / sqrtf theta_sq * omega.y,
            sinf (1 / 2 * sqrtf theta_sq) / sqrtf theta_sq * omega.z⟩ :
            Quat α).normSq = 1 := by
          simp only [Quat.normSq]
          have hexp : theta_sq = v.rx * v.rx + v.ry * v.ry + v.rz * v.rz := by
            rw [hts]; simp [homega, Vec3.normSq, Vec3.dot]
          generalize hc : cosf (1 / 2 * sqrtf theta_sq) = c
          generalize hs' : sinf (1 / 2 * sqrtf theta_sq) = s
          have hsc : s * s + c * c = 1 := by rw [← hc, ← hs']; exact hpy _
          field_simp
          linear_combination (c * c - 1) * hθ + (c * c - 1) * hexp +
            (v.rx * v.rx + v.ry * v.ry + v.rz * v.rz) * hsc
        have hne : (⟨cosf (1 / 2 * sqrtf theta_sq),
            sinf (1 / 2 * sqrtf theta_sq) / sqrtf theta_sq * omega.x,
            sinf (1 / 2 * sqrtf theta_sq) / sqrtf theta_sq * omega.y,
            sinf (1 / 2 * sqrtf theta_sq) / sqrtf theta_sq * omega.z⟩ :
            Quat α) ≠ 0 := by
          intro hcon
          rw [hcon] at hnorm
          simp [Quat.zero_quat_def, Quat.normSq] at hnorm
        have := Quat.normalize_normSq sqrtf _ hne (hsq _ (Quat.quatNormSq_nonneg _))
        simpa [Transform.se3_exp, ← hEPS, ← homega, ← hts, if_neg hbr] using this
  | from_matrix4 q xyz hq =>
      left
      exact hq
  | inverse t _ ih =>
      rcases ih with h1 | h1
      · left
        simpa [Transform.inverse, Quat.normSq_conj] using h1
      · right
        simp [Transform.inverse, h1, Quat.conj, Quat.zero_quat_def]
  | mul t1 t2 _ _ ih1 ih2 =>
      rcases ih1 with h1 | h1
      · rcases ih2 with h2 | h2
        · left
          simp [Transform.mul, Quat.normSq_mul, h1, h2]
        · right
          simp [Transform.mul, h2, Quat.mul_zero_right]
      · right
        simp [Transform.mul, h1, Quat.mul_zero_left]

/-- C2: Every Transform produced by `eye`, `new`, `se3_exp`, `from_matrix4`,
`inverse`, or composition maintains the rigid-transform invariant:
`transform_normal` preserves the (squared) Euclidean norm of every vector and
`transform_vector` preserves the (squared) distance between every pair of
points, given exact models of `sqrt`, `sin` and `cos`. -/
theorem C2_constructible_normPreserving {sqrtf sinf cosf : α → α}
    (hsq : ∀ a : α, 0 ≤ a → sqrtf a * sqrtf a = a)
    (hpy : ∀ a : α, sinf a * sinf a + cosf a * cosf a = 1)
    {t : Transform α} (h : Constructible sqrtf sinf cosf t) :
    t.NormPreserving :=
  t.normPreserving_of_unitOrZero (h.unitOrZero hsq hpy)

/-- Witness for C2: the concrete transform `se3_exp([1, 2, 3, 0.4, 0.5, 0.3])`
(the vector used by the repository's own `test_exp`) over `ℝ` preserves norms
and distances. -/
theorem C2_witness :
    (Transform.se3_exp Real.sqrt Real.sin Real.cos
      ⟨1, 2, 3, 2 / 5, 1 / 2, 3 / 10⟩).NormPreserving :=
  C2_constructible_normPreserving
    (fun a ha => Real.mul_self_sqrt ha)
    (fun a => by linear_combination Real.sin_sq_add_cos_sq a)
    (Constructible.se3_exp ⟨1, 2, 3, 2 / 5, 1 / 2, 3 / 10⟩)

/-- Sum of a list of vectors, the fold underlying `ndarray`'s axis sum. -/
def Vec3.listSum (l : List (Vec3 α)) : Vec3 α := l.foldl (fun a b => a + b) 0

/-- Embedding of `Sphere3Df` (`src/bounds/sphere3d.rs`). -/
@[ext] structure Sphere3Df (α : Type) where
  center : Vec3 α
  radius : α
deriving DecidableEq, Repr

namespace Sphere3Df

variable {α : Type} [LinearOrderedField α]

/-- `Sphere3Df::empty`: zero center and radius `-1`. -/
def empty : Sphere3Df α := ⟨0, -1⟩

/-- `Sphere3Df::is_empty`: the radius is negative. -/
def is_empty (s : Sphere3Df α) : Prop := s.radius < 0

instance (s : Sphere3Df α) : Decidable s.is_empty := by
  unfold is_empty
  infer_instance

/-- `Sphere3Df::from_points`.  The center is `mean_axis` (the sum of the rows
divided by their number); the radius is the square root of the `f32::max`
reduction of the per-row squared deviations.  `mean_axis` returns `None` on an
empty axis and the code `unwrap`s it — and `reduce` over the deviations is
likewise `None` — so the empty input is modelled as `none` (a panic). -/
def from_points (sqrtf : α → α) (points : List (Vec3 α)) : Option (Sphere3Df α) :=
  match points with
  | [] => none
  | p :: rest =>
    let center := (1 / ((p :: rest).length : α)) • Vec3.listSum (p :: rest)
    let sqDev := fun row : Vec3 α => (row - center).dot (row - center)
    some ⟨center, sqrtf ((rest.map sqDev).foldl max (sqDev p))⟩

/-- `Sphere3Df::from_point_iter`.  The center is the fold-sum divided by the
counted length; the radius folds `f32::max` over `center.dot(&p)` — the dot
product of the center with each point, not the squared deviation — and takes
the square root.  Empty input panics at `reduce(...).unwrap()` (`none`). -/
def from_point_iter (sqrtf : α → α) (points : List (Vec3 α)) : Option (Sphere3Df α) :=
  match points with
  | [] => none
  | p :: rest =>
    let center := (1 / ((p :: rest).length : α)) • Vec3.listSum (p :: rest)
    let f := fun q : Vec3 α => center.dot q
    some ⟨center, sqrtf ((rest.map f).foldl max (f p))⟩

/-- `Sphere3Df::add`: if `self.radius < 0` the other sphere is returned;
otherwise the center is the midpoint of the two centers and the radius is the
norm of `self.center - center` plus the larger radius.  Note that only
`self`'s emptiness is checked. -/
def add (sqrtf : α → α) (s other : Sphere3Df α) : Sphere3Df α :=
  if s.radius < 0 then other
  else
    let center := (1 / 2 : α) • (s.center + other.center)
    ⟨center, sqrtf ((s.center - center).dot (s.center - center)) + max s.radius other.radius⟩

/-- A point lies inside a sphere: its squared distance to the center is at
most the squared radius. -/
def containsPoint (s : Sphere3Df α) (p : Vec3 α) : Prop :=
  (p - s.center).normSq ≤ s.radius * s.radius

end Sphere3Df

/-- C3 counterexample: on the empty input, `from_points` does not return the
empty-marker sphere — `mean_axis` yields `None` and the `unwrap` panics
(modelled as `none`). -/
theorem C3_counterexample :
    Sphere3Df.from_points Real.sqrt ([] : List (Vec3 ℝ)) = none ∧
    Sphere3Df.from_points Real.sqrt ([] : List (Vec3 ℝ)) ≠ some Sphere3Df.empty :=
  ⟨rfl, by simp [Sphere3Df.from_points]⟩

/-- C3 (amended): `from_points` fails only on the empty input, but on the
empty input it panics (`unwrap` on `None`) instead of returning the
empty-marker sphere; for every non-empty point set it returns a sphere. -/
theorem C3_from_points_some_iff_nonempty (sqrtf : α → α) (points : List (Vec3 α)) :
    (Sphere3Df.from_points sqrtf points).isSome ↔ points ≠ [] := by
  cases points with
  | nil => simp [Sphere3Df.from_points]
  | cons p rest => simp [Sphere3Df.from_points]

/-- C5 counterexample: the empty-marker sphere is *not* a right identity of
`add`: with a non-empty left operand centered at `(2,0,0)` and the empty
marker on the right, the result's center moves to the midpoint `(1,0,0)`. -/
theorem C5_counterexample :
    (Sphere3Df.empty : Sphere3Df ℝ).radius < 0 ∧
    (Sphere3Df.add Real.sqrt ⟨⟨2, 0, 0⟩, 1⟩ (Sphere3Df.empty : Sphere3Df ℝ)).center ≠
      (⟨2, 0, 0⟩ : Vec3 ℝ) := by
  constructor
  · norm_num [Sphere3Df.empty]
  · simp only [Sphere3Df.add, Sphere3Df.empty, Vec3.zero_def, Vec3.add_def, Vec3.smul_def]
    norm_num [Vec3.mk.injEq]

/-- C5 (amended): the empty-marker sphere is a *left* identity of `add`: if
the left operand's radius is negative, the result is the right operand
unchanged (the right operand is never checked for emptiness). -/
theorem C5_add_empty_left_identity (sqrtf : α → α) (a b : Sphere3Df α)
    (ha : a.radius < 0) : Sphere3Df.add sqrtf a b = b := by
  simp [Sphere3Df.add, ha]

/-- Witness for C5 (amended) at a concrete empty left operand. -/
theorem C5_witness :
    Sphere3Df.add (fun x : ℚ => x) Sphere3Df.empty ⟨⟨1, 2, 3⟩, 4⟩ = ⟨⟨1, 2, 3⟩, 4⟩ :=
  C5_add_empty_left_identity (fun x : ℚ => x) Sphere3Df.empty ⟨⟨1, 2, 3⟩, 4⟩ (by norm_num [Sphere3Df.empty])

theorem foldl_max_init_le (a : α) (l : List α) : a ≤ l.foldl max a := by
  induction l generalizing a with
  | nil => simp
  | cons x xs ih => exact le_trans (le_max_left a x) (ih (max a x))

theorem foldl_max_mem_le (a x : α) (l : List α) (hx : x ∈ l) : x ≤ l.foldl max a := by
  induction l generalizing a with
  | nil => cases hx
  | cons y ys ih =>
      rcases List.mem_cons.mp hx with h | h
      · subst h
        exact le_trans (le_max_right a x) (foldl_max_init_le (max a x) ys)
      · exact ih (max a y) h

theorem foldl_max_eq_init_or_mem (a : α) (l : List α) :
    l.foldl max a = a ∨ l.foldl max a ∈ l := by
  induction l generalizing a with
  | nil => left; rfl
  | cons x xs ih =>
      rcases ih (max a x) with h | h
      · rcases max_choice a x with hm | hm
        · left
          simpa [hm] using h
        · right
          rw [List.foldl_cons, h, hm]
          exact List.mem_cons_self x xs
      · right
        exact List.mem_cons_of_mem x h

namespace Vec3

theorem sub_add_sub_cancel (a b c : Vec3 α) : (a - b) + (b - c) = a - c := by
  refine Vec3.ext ?_ ?_ ?_ <;> simp [Vec3.add_def, Vec3.sub_def]

theorem normSq_neg (v : Vec3 α) : (-v).normSq = v.normSq := by
  simp only [Vec3.neg_def, Vec3.normSq, Vec3.dot]
  ring

theorem sqrt_normSq_mul_self (v : Vec3 ℝ) :
    Real.sqrt v.normSq * Real.sqrt v.normSq = v.normSq :=
  Real.mul_self_sqrt v.normSq_nonneg

/-- Cauchy–Schwarz in three dimensions, with the Euclidean norm written as
the square root of `normSq`. -/
theorem dot_le_sqrt_normSq_mul (a b : Vec3 ℝ) :
    a.dot b ≤ Real.sqrt a.normSq * Real.sqrt b.normSq := by
  have h2 : (a.dot b) ^ 2 ≤ a.normSq * b.normSq := by
    simp only [Vec3.dot, Vec3.normSq]
    nlinarith [sq_nonneg (a.x * b.y - a.y * b.x), sq_nonneg (a.x * b.z - a.z * b.x),
      sq_nonneg (a.y * b.z - a.z * b.y)]
  calc a.dot b ≤ |a.dot b| := le_abs_self _
    _ = Real.sqrt ((a.dot b) ^ 2) := (Real.sqrt_sq_eq_abs _).symm
    _ ≤ Real.sqrt (a.normSq * b.normSq) := Real.sqrt_le_sqrt h2
    _ = Real.sqrt a.normSq * Real.sqrt b.normSq := Real.sqrt_mul a.normSq_nonneg _

theorem normSq_add (a b : Vec3 α) :
    (a + b).normSq = a.normSq + 2 * a.dot b + b.normSq := by
  simp only [Vec3.add_def, Vec3.normSq, Vec3.dot]
  ring

/-- Triangle inequality for the Euclidean norm. -/
theorem sqrt_normSq_add_le (a b : Vec3 ℝ) :
    Real.sqrt (a + b).normSq ≤ Real.sqrt a.normSq + Real.sqrt b.normSq := by
  have hs : (a + b).normSq ≤ (Real.sqrt a.normSq + Real.sqrt b.normSq) ^ 2 := by
    have hd := dot_le_sqrt_normSq_mul a b
    have ha := sqrt_normSq_mul_self a
    have hb := sqrt_normSq_mul_self b
    rw [normSq_add]
    nlinarith
  calc Real.sqrt (a + b).normSq
      ≤ Real.sqrt ((Real.sqrt a.normSq + Real.sqrt b.normSq) ^ 2) := Real.sqrt_le_sqrt hs
    _ = Real.sqrt a.normSq + Real.sqrt b.normSq := Real.sqrt_sq (by positivity)

theorem sqrt_normSq_le_of_normSq_le {v : Vec3 ℝ} {r : ℝ} (hr : 0 ≤ r)
    (h : v.normSq ≤ r * r) : Real.sqrt v.normSq ≤ r := by
  calc Real.sqrt v.normSq ≤ Real.sqrt (r * r) := Real.sqrt_le_sqrt h
    _ = r := Real.sqrt_mul_self hr

theorem normSq_le_of_sqrt_normSq_le {v : Vec3 ℝ} {r : ℝ} (h : Real.sqrt v.normSq ≤ r) :
    v.normSq ≤ r * r := by
  rw [← sqrt_normSq_mul_self]
  exact mul_self_le_mul_self (Real.sqrt_nonneg _) h

end Vec3

/-- C4 counterexample: the merged center is *not* shifted toward the larger
sphere: with radii 1 and 5, the result's center is the exact midpoint,
equidistant from both input centers. -/
theorem C4_counterexample :
    (Sphere3Df.add Real.sqrt ⟨⟨0, 0, 0⟩, 1⟩ ⟨⟨2, 0, 0⟩, 5⟩).center = (⟨1, 0, 0⟩ : Vec3 ℝ) ∧
    ((1 : ℝ) < 5) ∧
    ((⟨1, 0, 0⟩ : Vec3 ℝ) - (⟨0, 0, 0⟩ : Vec3 ℝ)).normSq =
      ((⟨1, 0, 0⟩ : Vec3 ℝ) - (⟨2, 0, 0⟩ : Vec3 ℝ)).normSq := by
  refine ⟨?_, by norm_num, ?_⟩
  · simp only [Sphere3Df.add, Vec3.add_def, Vec3.smul_def]
    norm_num [Vec3.mk.injEq]
  · simp only [Vec3.sub_def, Vec3.normSq, Vec3.dot]
    norm_num

/-- C4 (amended): for non-empty operands, `add` returns the sphere whose
center is the *exact* midpoint of the two centers (no shift toward the larger
sphere) and whose radius is the distance from `a`'s center to that midpoint
plus the larger of the two radii; this sphere contains both inputs.  The
operands are taken by value and returned unmodified. -/
theorem C4_add_contains (a b : Sphere3Df ℝ) (ha : ¬a.is_empty) (hb : ¬b.is_empty) :
    (Sphere3Df.add Real.sqrt a b).center = (1 / 2 : ℝ) • (a.center + b.center) ∧
    (Sphere3Df.add Real.sqrt a b).radius =
      Real.sqrt (a.center - (1 / 2 : ℝ) • (a.center + b.center)).normSq +
        max a.radius b.radius ∧
    (∀ p : Vec3 ℝ, a.containsPoint p → (Sphere3Df.add Real.sqrt a b).containsPoint p) ∧
    (∀ p : Vec3 ℝ, b.containsPoint p → (Sphere3Df.add Real.sqrt a b).containsPoint p) := by
  simp only [Sphere3Df.is_empty, not_lt] at ha hb
  have hifneg : ¬a.radius < 0 := not_lt.mpr ha
  set c : Vec3 ℝ := (1 / 2 : ℝ) • (a.center + b.center) with hc
  have hadd : Sphere3Df.add Real.sqrt a b =
      ⟨c, Real.sqrt (a.center - c).normSq + max a.radius b.radius⟩ := by
    simp only [Sphere3Df.add, if_neg hifneg, hc]
    rfl
  have hsymm : b.center - c = -(a.center - c) := by
    rw [hc]
    refine Vec3.ext ?_ ?_ ?_ <;>
      simp [Vec3.sub_def, Vec3.add_def, Vec3.smul_def, Vec3.neg_def] <;> ring
  have hR0 : 0 ≤ Real.sqrt (a.center - c).normSq + max a.radius b.radius :=
    add_nonneg (Real.sqrt_nonneg _) (le_trans ha (le_max_left _ _))
  refine ⟨by rw [hadd], by rw [hadd], ?_, ?_⟩
  · intro p hp
    rw [hadd]
    simp only [Sphere3Df.containsPoint] at hp ⊢
    apply Vec3.normSq_le_of_sqrt_normSq_le
    have h1 : (p - c) = (p - a.center) + (a.center - c) := (Vec3.sub_add_sub_cancel _ _ _).symm
    calc Real.sqrt (p - c).normSq
        = Real.sqrt ((p - a.center) + (a.center - c)).normSq := by rw [← h1]
      _ ≤ Real.sqrt (p - a.center).normSq + Real.sqrt (a.center - c).normSq :=
          Vec3.sqrt_normSq_add_le _ _
      _ ≤ a.radius + Real.sqrt (a.center - c).normSq :=
          add_le_add_right (Vec3.sqrt_normSq_le_of_normSq_le ha hp) _
      _ ≤ max a.radius b.radius + Real.sqrt (a.center - c).normSq :=
          add_le_add_right (le_max_left _ _) _
      _ = Real.sqrt (a.center - c).normSq + max a.radius b.radius := by ring
  · intro p hp
    rw [hadd]
    simp only [Sphere3Df.containsPoint] at hp ⊢
    apply Vec3.normSq_le_of_sqrt_normSq_le
    have h1 : (p - c) = (p - b.center) + (b.center - c) := (Vec3.sub_add_sub_cancel _ _ _).symm
    have h2 : Real.sqrt (b.center - c).normSq = Real.sqrt (a.center - c).normSq := by
      rw [hsymm, Vec3.normSq_neg]
    calc Real.sqrt (p - c).normSq
        = Real.sqrt ((p - b.center) + (b.center - c)).normSq := by rw [← h1]
      _ ≤ Real.sqrt (p - b.center).normSq + Real.sqrt (b.center - c).normSq :=
          Vec3.sqrt_normSq_add_le _ _
      _ ≤ b.radius + Real.sqrt (a.center - c).normSq := by
          rw [h2]
          exact add_le_add_right (Vec3.sqrt_normSq_le_of_normSq_le hb hp) _
      _ ≤ max a.radius b.radius + Real.sqrt (a.center - c).normSq :=
          add_le_add_right (le_max_right _ _) _
      _ = Real.sqrt (a.center - c).normSq + max a.radius b.radius := by ring

/-- Witness for C4 (amended): merging the unit sphere at the origin with the
radius-3 sphere at `(2,0,0)` produces the midpoint center `(1,0,0)`. -/
theorem C4_witness :
    (Sphere3Df.add Real.sqrt ⟨⟨0, 0, 0⟩, 1⟩ ⟨⟨2, 0, 0⟩, 3⟩).center =
      (1 / 2 : ℝ) • ((⟨0, 0, 0⟩ : Vec3 ℝ) + ⟨2, 0, 0⟩) :=
  (C4_add_contains ⟨⟨0, 0, 0⟩, 1⟩ ⟨⟨2, 0, 0⟩, 3⟩
    (by norm_num [Sphere3Df.is_empty]) (by norm_num [Sphere3Df.is_empty])).1

/-- C6 counterexample: for the points `{(0,0,0), (4,0,0)}` the maximum squared
deviation from the mean center `(2,0,0)` is 4, but the returned radius is
`sqrt 4 = 2` — the radius is not the maximum squared deviation. -/
theorem C6_counterexample :
    Sphere3Df.from_points Real.sqrt [(⟨0, 0, 0⟩ : Vec3 ℝ), ⟨4, 0, 0⟩] =
      some ⟨⟨2, 0, 0⟩, 2⟩ ∧
    ((⟨0, 0, 0⟩ : Vec3 ℝ) - ⟨2, 0, 0⟩).normSq = 4 ∧
    (2 : ℝ) ≠ 4 := by
  refine ⟨?_, ?_, by norm_num⟩
  · simp only [Sphere3Df.from_points, Vec3.listSum, List.foldl, List.map, List.length_cons,
      List.length_nil, Vec3.zero_def, Vec3.add_def, Vec3.smul_def, Vec3.sub_def, Vec3.dot]
    norm_num [Sphere3Df.mk.injEq, Vec3.mk.injEq]
    rw [show (4 : ℝ) = 2 ^ 2 by norm_num, Real.sqrt_sq (by norm_num : (0 : ℝ) ≤ 2)]
  · simp only [Vec3.sub_def, Vec3.normSq, Vec3.dot]
    norm_num

/-- C6 (amended): for every non-empty point set, `from_points` returns the
sphere whose center is the arithmetic mean of the points and whose radius is
the *square root* of the maximum squared deviation from that center (that is,
the maximum Euclidean distance): the squared radius bounds every point's
squared deviation and is attained by one of the points. -/
theorem C6_from_points_mean_and_max_dist (pts : List (Vec3 ℝ)) (s : Sphere3Df ℝ)
    (h : Sphere3Df.from_points Real.sqrt pts = some s) :
    s.center = (1 / (pts.length : ℝ)) • Vec3.listSum pts ∧
    0 ≤ s.radius ∧
    (∀ p ∈ pts, (p - s.center).normSq ≤ s.radius * s.radius) ∧
    (∃ p ∈ pts, (p - s.center).normSq = s.radius * s.radius) := by
  cases pts with
  | nil => simp [Sphere3Df.from_points] at h
  | cons p rest =>
      simp only [Sphere3Df.from_points, Option.some.injEq] at h
      subst h
      set c : Vec3 ℝ := (1 / ((p :: rest).length : ℝ)) • Vec3.listSum (p :: rest) with hc
      set sqDev : Vec3 ℝ → ℝ := fun row => (row - c).dot (row - c) with hsf
      set M : ℝ := (rest.map sqDev).foldl max (sqDev p) with hM
      have hM0 : 0 ≤ M := by
        have h1 : 0 ≤ sqDev p := Vec3.normSq_nonneg (p - c)
        exact le_trans h1 (foldl_max_init_le _ _)
      have hrad : Real.sqrt M * Real.sqrt M = M := Real.mul_self_sqrt hM0
      refine ⟨rfl, Real.sqrt_nonneg _, ?_, ?_⟩
      · intro q hq
        have hle : sqDev q ≤ M := by
          rcases List.mem_cons.mp hq with h | h
          · subst h
            exact foldl_max_init_le _ _
          · exact foldl_max_mem_le _ _ _ (List.mem_map_of_mem sqDev h)
        calc (q - c).normSq = sqDev q := rfl
          _ ≤ M := hle
          _ = Real.sqrt M * Real.sqrt M := hrad.symm
      · rcases foldl_max_eq_init_or_mem (sqDev p) (rest.map sqDev) with h | h
        · refine ⟨p, List.mem_cons_self p rest, ?_⟩
          calc (p - c).normSq = sqDev p := rfl
            _ = M := by rw [hM, h]
            _ = Real.sqrt M * Real.sqrt M := hrad.symm
        · rcases List.mem_map.mp (hM ▸ h) with ⟨q, hq, hqe⟩
          refine ⟨q, List.mem_cons_of_mem p hq, ?_⟩
          calc (q - c).normSq = sqDev q := rfl
            _ = M := hqe
            _ = Real.sqrt M * Real.sqrt M := hrad.symm

/-- Witness for C6 (amended), at the two-point set `{(0,0,0), (4,0,0)}`. -/
theorem C6_witness :
    (⟨⟨2, 0, 0⟩, 2⟩ : Sphere3Df ℝ).center =
      (1 / (([(⟨0, 0, 0⟩ : Vec3 ℝ), ⟨4, 0, 0⟩].length : ℝ))) •
        Vec3.listSum [(⟨0, 0, 0⟩ : Vec3 ℝ), ⟨4, 0, 0⟩] ∧
    (0 : ℝ) ≤ (⟨⟨2, 0, 0⟩, 2⟩ : Sphere3Df ℝ).radius ∧
    (∀ p ∈ [(⟨0, 0, 0⟩ : Vec3 ℝ), ⟨4, 0, 0⟩],
      (p - (⟨⟨2, 0, 0⟩, 2⟩ : Sphere3Df ℝ).center).normSq ≤
        (⟨⟨2, 0, 0⟩, 2⟩ : Sphere3Df ℝ).radius * (⟨⟨2, 0, 0⟩, 2⟩ : Sphere3Df ℝ).radius) ∧
    (∃ p ∈ [(⟨0, 0, 0⟩ : Vec3 ℝ), ⟨4, 0, 0⟩],
      (p - (⟨⟨2, 0, 0⟩, 2⟩ : Sphere3Df ℝ).center).normSq =
        (⟨⟨2, 0, 0⟩, 2⟩ : Sphere3Df ℝ).radius * (⟨⟨2, 0, 0⟩, 2⟩ : Sphere3Df ℝ).radius) := by
  have h : Sphere3Df.from_points Real.sqrt [(⟨0, 0, 0⟩ : Vec3 ℝ), ⟨4, 0, 0⟩] =
      some ⟨⟨2, 0, 0⟩, 2⟩ := by
    simp only [Sphere3Df.from_points, Vec3.listSum, List.foldl, List.map, List.length_cons,
      List.length_nil, Vec3.zero_def, Vec3.add_def, Vec3.smul_def, Vec3.sub_def, Vec3.dot]
    norm_num [Sphere3Df.mk.injEq, Vec3.mk.injEq]
    rw [show (4 : ℝ) = 2 ^ 2 by norm_num, Real.sqrt_sq (by norm_num : (0 : ℝ) ≤ 2)]
  exact C6_from_points_mean_and_max_dist [(⟨0, 0, 0⟩ : Vec3 ℝ), ⟨4, 0, 0⟩] ⟨⟨2, 0, 0⟩, 2⟩ h

/-- C10: the two bounding-sphere constructors diverge.  On the point set
`{(1,0,0), (3,0,0)}` both compute the mean center `(2,0,0)`, but
`from_points` returns radius `sqrt 1 = 1` (max distance from the center)
while `from_point_iter` folds `center.dot(&p)` and returns `sqrt 6 ≠ 1`. -/
theorem C10_divergence :
    Sphere3Df.from_points Real.sqrt [(⟨1, 0, 0⟩ : Vec3 ℝ), ⟨3, 0, 0⟩] =
      some ⟨⟨2, 0, 0⟩, 1⟩ ∧
    Sphere3Df.from_point_iter Real.sqrt [(⟨1, 0, 0⟩ : Vec3 ℝ), ⟨3, 0, 0⟩] =
      some ⟨⟨2, 0, 0⟩, Real.sqrt 6⟩ ∧
    Real.sqrt 6 ≠ 1 := by
  refine ⟨?_, ?_, ?_⟩
  · simp only [Sphere3Df.from_points, Vec3.listSum, List.foldl, List.map, List.length_cons,
      List.length_nil, Vec3.zero_def, Vec3.add_def, Vec3.smul_def, Vec3.sub_def, Vec3.dot]
    norm_num [Sphere3Df.mk.injEq, Vec3.mk.injEq]
  · simp only [Sphere3Df.from_point_iter, Vec3.listSum, List.foldl, List.map, List.length_cons,
      List.length_nil, Vec3.zero_def, Vec3.add_def, Vec3.smul_def, Vec3.dot]
    norm_num [Sphere3Df.mk.injEq, Vec3.mk.injEq]
  · intro hcon
    have h6 : (6 : ℝ) = 1 := by
      have := Real.mul_self_sqrt (by norm_num : (0 : ℝ) ≤ 6)
      rw [hcon] at this
      linarith
    norm_num at h6

/-- Modelled from the spec: the repository's error type (`src/error.rs` is not
present under `src/`); the spec's design notes describe format resolution
failing with an invalid-parameter error naming the rejected format. -/
inductive A3dError where
  | invalid_parameter (msg : String) : A3dError
deriving DecidableEq, Repr

/-- Modelled from the spec: the dataset loaders (`SlamTbDataset`,
`IndoorLidarDataset`, `TumRgbdDataset`) are external collaborators
("format-specific loaders" are out of scope), so a loaded dataset is
represented by its closed tagged variant together with the path it was loaded
from. -/
inductive RgbdDatasetBox where
  | slamtb (path : String)
  | ilrgbd (path : String)
  | tum (path : String)
deriving DecidableEq, Repr

/-- `create_dataset_from_string` (`src/bin_utils/dataset.rs`): a closed match
over the recognized format strings, with first-match semantics mirrored as an
if-chain. -/
def create_dataset_from_string (format path : String) : Except A3dError RgbdDatasetBox :=
  if format = "slamtb" then Except.ok (RgbdDatasetBox.slamtb path)
  else if format = "ilrgbd" then Except.ok (RgbdDatasetBox.ilrgbd path)
  else if format = "tum" then Except.ok (RgbdDatasetBox.tum path)
  else Except.error (A3dError.invalid_parameter ("Invalid dataset format: " ++ format))

/-- C9: `create_dataset_from_string` returns `Ok` for exactly the formats
"slamtb", "ilrgbd" and "tum"; every other format string yields an
invalid-parameter error naming the rejected format. -/
theorem C9_dataset_format_dispatch (format path : String) :
    ((∃ d : RgbdDatasetBox, create_dataset_from_string format path = Except.ok d) ↔
      format = "slamtb" ∨ format = "ilrgbd" ∨ format = "tum") ∧
    (format ≠ "slamtb" → format ≠ "ilrgbd" → format ≠ "tum" →
      create_dataset_from_string format path =
        Except.error (A3dError.invalid_parameter ("Invalid dataset format: " ++ format))) := by
  by_cases h1 : format = "slamtb"
  · simp [create_dataset_from_string, h1]
  · by_cases h2 : format = "ilrgbd"
    · simp [create_dataset_from_string, h1, h2]
    · by_cases h3 : format = "tum"
      · simp [create_dataset_from_string, h1, h2, h3]
      · simp [create_dataset_from_string, h1, h2, h3]

/-- Witness for C9: a concrete unrecognized format string is rejected with the
invalid-parameter error naming it. -/
theorem C9_witness :
    create_dataset_from_string "klg" "/data/scan1" =
      Except.error (A3dError.invalid_parameter ("Invalid dataset format: " ++ "klg")) :=
  (C9_dataset_format_dispatch "klg" "/data/scan1").2 (by decide) (by decide) (by decide)

instance : Inhabited (Vec3 α) := ⟨⟨0, 0, 0⟩⟩

/-- Embedding of `ImagePointCloud` (`src/imagepointcloud.rs`).  The 2D pixel
grid is row-major: the `(height, width, 3)` point / normal buffers, the
`(height, width, 3)` `u8` color buffer and the `(height, width)` `u8` mask are
flattened to lists of length `height * width`, pixel `(row, col)` at index
`row * width + col` (exactly the reshape the conversion code performs). -/
structure ImagePointCloud (α : Type) where
  height : ℕ
  width : ℕ
  points : List (Vec3 α)
  mask : List ℕ
  normals : Option (List (Vec3 α))
  colors : Option (List (ℕ × ℕ × ℕ))

/-- Embedding of `PointCloud` (constructed by the
`From<&ImagePointCloud> for PointCloud` conversion; the struct itself lives in
`pointcloud.rs`, outside `src/`, but the conversion constructs exactly these
three fields). -/
@[ext] structure PointCloud (α : Type) where
  points : List (Vec3 α)
  normals : Option (List (Vec3 α))
  colors : Option (List (ℕ × ℕ × ℕ))

/-- The `enumerate → filter by mask[idx] != 0 → drop the index` selection the
conversion applies to each flattened buffer. -/
def maskFilter {β : Type} (mask : List ℕ) (rows : List β) : List β :=
  ((rows.enum).filter (fun iv => mask.getD iv.1 0 != 0)).map Prod.snd

/-- `Array2::from_shape_vec((num_valid, 3), v).unwrap()`: succeeds exactly
when the filtered row count matches `num_valid` (a panic otherwise). -/
def guardLen {β : Type} (numValid : ℕ) (l : List β) : Option (List β) :=
  if l.length = numValid then some l else none

/-- The `From<&ImagePointCloud> for PointCloud` conversion
(`src/imagepointcloud.rs`).  `num_valid_points` sums the mask bytes as
integers; each buffer is flattened, filtered by the mask and reassembled with
`from_shape_vec(...).unwrap()`, whose panic is modelled as `none`. -/
def toPointCloud (img : ImagePointCloud α) : Option (PointCloud α) :=
  let numValid := img.mask.sum
  Option.bind (guardLen numValid (maskFilter img.mask img.points)) (fun pts =>
    Option.bind
      (match img.normals with
       | none => some none
       | some l => Option.map some (guardLen numValid (maskFilter img.mask l)))
      (fun ns =>
        Option.bind
          (match img.colors with
           | none => some none
           | some l => Option.map some (guardLen numValid (maskFilter img.mask l)))
          (fun cs => some ⟨pts, ns, cs⟩)))

/-- The row-major indices of the mask-set pixels. -/
def setPixelIndices (mask : List ℕ) : List ℕ :=
  (List.range mask.length).filter (fun i => mask.getD i 0 != 0)

/-- Specification-side selection: the buffer entries at the mask-set pixel
indices, in row-major order. -/
def selectByMask {β : Type} [Inhabited β] (mask : List ℕ) (rows : List β) : List β :=
  (setPixelIndices mask).map (fun i => rows.getD i default)

/-- Structural recursion equivalent of the enumerate/filter selection. -/
def maskSelRec {β : Type} : List ℕ → List β → List β
  | m :: ms, x :: xs => if m ≠ 0 then x :: maskSelRec ms xs else maskSelRec ms xs
  | _, _ => []

theorem maskSelRec_nil_right {β : Type} (ms : List ℕ) : maskSelRec ms ([] : List β) = [] := by
  cases ms <;> rfl

theorem maskSelRec_nil_left {β : Type} (xs : List β) : maskSelRec [] xs = [] := by
  cases xs <;> rfl

theorem maskSelRec_cons {β : Type} (m : ℕ) (ms : List ℕ) (x : β) (xs : List β) :
    maskSelRec (m :: ms) (x :: xs) =
      if m ≠ 0 then x :: maskSelRec ms xs else maskSelRec ms xs := rfl

theorem maskFilter_enumFrom {β : Type} (mask : List ℕ) (rows : List β) (n : ℕ) :
    ((rows.enumFrom n).filter (fun iv => mask.getD iv.1 0 != 0)).map Prod.snd =
      maskSelRec (mask.drop n) rows := by
  induction rows generalizing n with
  | nil => simp [List.enumFrom, maskSelRec_nil_right]
  | cons x xs ih =>
      have hstep : (x :: xs).enumFrom n = (n, x) :: xs.enumFrom (n + 1) := rfl
      rw [hstep]
      by_cases hn : n < mask.length
      · have hdrop : mask.drop n = mask.getD n 0 :: mask.drop (n + 1) := by
          rw [List.drop_eq_getElem_cons hn, List.getD_eq_getElem mask 0 hn]
        rw [hdrop, maskSelRec_cons]
        by_cases hm : mask.getD n 0 = 0
        · rw [List.filter_cons_of_neg (by simpa using hm), if_neg (not_not_intro hm)]
          exact ih (n + 1)
        · rw [List.filter_cons_of_pos (by simpa using hm), if_pos hm, List.map_cons]
          rw [ih (n + 1)]
      · have hge : mask.length ≤ n := le_of_not_lt hn
        have h0 : mask.getD n 0 = 0 := List.getD_eq_default mask 0 hge
        have hd1 : mask.drop n = [] := List.drop_eq_nil_of_le hge
        have hd2 : mask.drop (n + 1) = [] :=
          List.drop_eq_nil_of_le (le_trans hge (Nat.le_succ n))
        rw [hd1, List.filter_cons_of_neg (by simpa using h0), maskSelRec_nil_left]
        rw [ih (n + 1), hd2, maskSelRec_nil_left]

theorem maskFilter_eq_maskSelRec {β : Type} (mask : List ℕ) (rows : List β) :
    maskFilter mask rows = maskSelRec mask rows := by
  have h := maskFilter_enumFrom mask rows 0
  simpa [maskFilter, List.enum] using h

/-- Under a 0/1 mask of the same length as the buffer, the selection size is
the mask sum (the code's `num_valid_points`). -/
theorem maskSelRec_length {β : Type} (mask : List ℕ) (rows : List β)
    (hm : ∀ m ∈ mask, m ≤ 1) (hl : rows.length = mask.length) :
    (maskSelRec mask rows).length = mask.sum := by
  induction mask generalizing rows with
  | nil =>
      cases rows with
      | nil => simp [maskSelRec_nil_left]
      | cons x xs => simp at hl
  | cons m ms ih =>
      cases rows with
      | nil => simp at hl
      | cons x xs =>
          simp only [List.length_cons, Nat.succ.injEq] at hl
          have hm0 : m ≤ 1 := hm m (List.mem_cons_self m ms)
          have hms : ∀ a ∈ ms, a ≤ 1 := fun a ha => hm a (List.mem_cons_of_mem m ha)
          rw [maskSelRec_cons, List.sum_cons]
          by_cases h0 : m = 0
          · simp [h0, ih xs hms hl]
          · have h1 : m = 1 := by omega
            simp [h0, h1, ih xs hms hl]
            omega

/-- The structural selection agrees with the index-based specification
selection when the buffer and mask have equal length. -/
theorem maskSelRec_eq_selectByMask {β : Type} [Inhabited β] (mask : List ℕ) (rows : List β)
    (hl : rows.length = mask.length) :
    maskSelRec mask rows = selectByMask mask rows := by
  induction mask generalizing rows with
  | nil =>
      cases rows with
      | nil => simp [maskSelRec_nil_left, selectByMask, setPixelIndices]
      | cons x xs => simp at hl
  | cons m ms ih =>
      cases rows with
      | nil => simp at hl
      | cons x xs =>
          simp only [List.length_cons, Nat.succ.injEq] at hl
          have hrec : selectByMask (m :: ms) (x :: xs) =
              (if m ≠ 0 then [x] else []) ++ selectByMask ms xs := by
            have hf : ((fun i => (x :: xs).getD i default) ∘ Nat.succ) =
                (fun i : ℕ => xs.getD i default) := funext fun i => by simp
            have hq : ((fun i => (m :: ms).getD i 0 != 0) ∘ Nat.succ) =
                (fun i : ℕ => ms.getD i 0 != 0) := funext fun i => by simp
            simp only [selectByMask, setPixelIndices, List.length_cons,
              List.range_succ_eq_map, List.filter_cons, List.filter_map, List.map_map,
              hf, hq]
            by_cases h0 : m = 0
            · simp [h0]
            · simp [h0]
          rw [maskSelRec_cons, hrec, ih xs hl]
          by_cases h0 : m = 0
          · simp [h0]
          · simp [h0]

/-- C7: converting an `ImagePointCloud` into a `PointCloud` yields exactly the
points — and, when present, the normals and colors — of the pixels whose
validity mask is nonzero, in row-major pixel order; the point count equals the
number of mask-set pixels, and the `from_shape_vec` reassembly never panics.
Hypotheses: the buffers cover the pixel grid and the mask entries are the 0/1
validity flags the structure maintains. -/
theorem C7_toPointCloud_mask_filtered (img : ImagePointCloud α)
    (hm : ∀ m ∈ img.mask, m ≤ 1)
    (hk : img.mask.length = img.height * img.width)
    (hp : img.points.length = img.height * img.width)
    (hn : ∀ l, img.normals = some l → l.length = img.height * img.width)
    (hc : ∀ l, img.colors = some l → l.length = img.height * img.width) :
    toPointCloud img =
      some ⟨selectByMask img.mask img.points,
            Option.map (fun l => selectByMask img.mask l) img.normals,
            Option.map (fun l => selectByMask img.mask l) img.colors⟩ ∧
    (selectByMask img.mask img.points).length = (setPixelIndices img.mask).length := by
  have hsel : ∀ (rows : List (Vec3 α)), rows.length = img.height * img.width →
      maskFilter img.mask rows = selectByMask img.mask rows ∧
      (maskFilter img.mask rows).length = img.mask.sum := fun rows hr => by
    have hl : rows.length = img.mask.length := by rw [hr, hk]
    rw [maskFilter_eq_maskSelRec]
    exact ⟨maskSelRec_eq_selectByMask img.mask rows hl,
      maskSelRec_length img.mask rows hm hl⟩
  have hselc : ∀ (rows : List (ℕ × ℕ × ℕ)), rows.length = img.height * img.width →
      maskFilter img.mask rows = selectByMask img.mask rows ∧
      (maskFilter img.mask rows).length = img.mask.sum := fun rows hr => by
    have hl : rows.length = img.mask.length := by rw [hr, hk]
    rw [maskFilter_eq_maskSelRec]
    exact ⟨maskSelRec_eq_selectByMask img.mask rows hl,
      maskSelRec_length img.mask rows hm hl⟩
  obtain ⟨hpts_eq, hpts_len⟩ := hsel img.points hp
  rw [hpts_eq] at hpts_len
  constructor
  · cases hno : img.normals with
    | none =>
        cases hco : img.colors with
        | none =>
            simp only [toPointCloud, hno, hco]
            rw [hpts_eq]
            simp [guardLen, hpts_len]
        | some lc =>
            obtain ⟨hc_eq, hc_len⟩ := hselc lc (hc lc hco)
            rw [hc_eq] at hc_len
            simp only [toPointCloud, hno, hco]
            rw [hpts_eq, hc_eq]
            simp [guardLen, hpts_len, hc_len]
    | some ln =>
        obtain ⟨hn_eq, hn_len⟩ := hsel ln (hn ln hno)
        rw [hn_eq] at hn_len
        cases hco : img.colors with
        | none =>
            simp only [toPointCloud, hno, hco]
            rw [hpts_eq, hn_eq]
            simp [guardLen, hpts_len, hn_len]
        | some lc =>
            obtain ⟨hc_eq, hc_len⟩ := hselc lc (hc lc hco)
            rw [hc_eq] at hc_len
            simp only [toPointCloud, hno, hco]
            rw [hpts_eq, hn_eq, hc_eq]
            simp [guardLen, hpts_len, hn_len, hc_len]
  · simp [selectByMask]

/-- Witness for C7: a 1×3 frame with mask `[1,0,1]` converts to the two valid
pixels' points, normals and colors, in order. -/
theorem C7_witness :
    toPointCloud (⟨1, 3, [⟨1, 0, 0⟩, ⟨2, 0, 0⟩, ⟨3, 0, 0⟩], [1, 0, 1],
        some [⟨0, 0, 1⟩, ⟨0, 1, 0⟩, ⟨1, 0, 0⟩],
        some [(255, 0, 0), (0, 255, 0), (0, 0, 255)]⟩ : ImagePointCloud ℚ) =
      some ⟨selectByMask [1, 0, 1] [⟨1, 0, 0⟩, ⟨2, 0, 0⟩, ⟨3, 0, 0⟩],
            Option.map (fun l => selectByMask [1, 0, 1] l)
              (some [⟨0, 0, 1⟩, ⟨0, 1, 0⟩, ⟨1, 0, 0⟩]),
            Option.map (fun l => selectByMask [1, 0, 1] l)
              (some [(255, 0, 0), (0, 255, 0), (0, 0, 255)])⟩ :=
  (C7_toPointCloud_mask_filtered
    (⟨1, 3, [⟨1, 0, 0⟩, ⟨2, 0, 0⟩, ⟨3, 0, 0⟩], [1, 0, 1],
        some [⟨0, 0, 1⟩, ⟨0, 1, 0⟩, ⟨1, 0, 0⟩],
        some [(255, 0, 0), (0, 255, 0), (0, 0, 255)]⟩ : ImagePointCloud ℚ)
    (by decide) (by decide) (by decide)
    (by intro l hl; cases hl; decide) (by intro l hl; cases hl; decide)).1

/-- Direct pixel read `self.points[(row, col, ·)]` (no mask or bounds check;
out-of-range flattened indices default to zero, as the callers below only use
it in-bounds). -/
def ImagePointCloud.pointAt (img : ImagePointCloud α) (row col : ℕ) : Vec3 α :=
  img.points.getD (row * img.width + col) 0

/-- `ImagePointCloud::get_point`: `Some` only when the column and row are in
bounds and the pixel's mask byte equals 1. -/
def ImagePointCloud.get_point (img : ImagePointCloud α) (row col : ℕ) : Option (Vec3 α) :=
  if col < img.width ∧ row < img.height ∧ img.mask.getD (row * img.width + col) 0 = 1 then
    some (img.pointAt row col)
  else none

/-- Model of `(i as i32 - 1) as usize` for `i < 2^31`: at 0 the subtraction
wraps to `2^64 - 1` (which always fails the subsequent bounds check), otherwise
it is `i - 1`. -/
def wrapSub1 (n : ℕ) : ℕ := if n = 0 then 2 ^ 64 - 1 else n - 1

/-- The pre-normalization normal `compute_normals` builds at a valid pixel:
central/one-sided differences chosen by the squared-distance ratio test
(`ratio_threshold = 2`), then the cross product.  Division by a zero squared
distance denotes 0 in the embedding; this selects the same branch as the Rust
`f32` code does with `inf`/`NaN` ratios, since both fail the
`ratio < 4 ∧ ratio > 1/4` test and the subsequent `<` comparison. -/
def ImagePointCloud.rawNormalAt (img : ImagePointCloud α) (row col : ℕ) : Vec3 α :=
  let ratio_threshold : α := 2
  let ratio_threshold_squared := ratio_threshold * ratio_threshold
  let center := img.pointAt row col
  let left := (img.get_point row (wrapSub1 col)).getD 0
  let right := (img.get_point row (col + 1)).getD 0
  let left_dist_squared := (left - center).normSq
  let right_dist_squared := (right - center).normSq
  let lrRatio := left_dist_squared / right_dist_squared
  let left_to_right :=
    if lrRatio < ratio_threshold_squared ∧ 1 / ratio_threshold_squared < lrRatio then
      right - left
    else if left_dist_squared < right_dist_squared then center - left
    else right - center
  let bottom := (img.get_point (row + 1) col).getD 0
  let top := (img.get_point (wrapSub1 row) col).getD 0
  let bottom_dist_squared := (bottom - center).normSq
  let top_dist_squared := (top - center).normSq
  let btRatio := bottom_dist_squared / top_dist_squared
  let bottom_to_top :=
    if btRatio < ratio_threshold_squared ∧ 1 / ratio_threshold_squared < btRatio then
      top - bottom
    else if bottom_dist_squared < top_dist_squared then center - bottom
    else top - center
  left_to_right.cross bottom_to_top

/-- The normal `compute_normals` stores at a pixel: zero for pixels whose mask
byte is not 1 (the `continue`, leaving the zero initialization), and otherwise
the raw normal divided by its magnitude when that magnitude exceeds `1e-6`
(idealized as the exact rational `1/10^6`), zero otherwise. -/
def ImagePointCloud.storedNormalAt (sqrtf : α → α) (img : ImagePointCloud α)
    (row col : ℕ) : Vec3 α :=
  if img.mask.getD (row * img.width + col) 0 ≠ 1 then 0
  else
    let normal := img.rawNormalAt row col
    let normal_magnitude := sqrtf normal.normSq
    if 1 / 1000000 < normal_magnitude then
      ⟨normal.x / normal_magnitude, normal.y / normal_magnitude, normal.z / normal_magnitude⟩
    else 0

/-- `ImagePointCloud::compute_normals`: fills the row-major normal buffer with
the per-pixel stored normals and sets `self.normals`. -/
def ImagePointCloud.compute_normals (sqrtf : α → α) (img : ImagePointCloud α) :
    ImagePointCloud α :=
  { img with
    normals := some ((List.range (img.height * img.width)).map
      (fun i => img.storedNormalAt sqrtf (i / img.width) (i % img.width))) }

/-- C8: after `compute_normals`, every pixel's stored normal is either the
zero vector or has unit (squared) Euclidean length: a normal is written only
after division by its magnitude and only when that magnitude exceeds `1e-6`;
pixels whose mask is not set keep the zero normal.  The width/height bounds
keep the `as i32 - 1` index-wrap model faithful; `sqrtf` is an exact model of
`f32::sqrt`. -/
theorem C8_compute_normals_unit_or_zero (sqrtf : α → α) (img : ImagePointCloud α)
    (hsq : ∀ a : α, 0 ≤ a → sqrtf a * sqrtf a = a)
    (_hW : img.width < 2 ^ 31) (_hH : img.height < 2 ^ 31) :
    ((ImagePointCloud.compute_normals sqrtf img).normals =
      some ((List.range (img.height * img.width)).map
        (fun i => img.storedNormalAt sqrtf (i / img.width) (i % img.width)))) ∧
    (∀ row col : ℕ, img.storedNormalAt sqrtf row col = 0 ∨
      (img.storedNormalAt sqrtf row col).normSq = 1) ∧
    (∀ row col : ℕ, img.mask.getD (row * img.width + col) 0 ≠ 1 →
      img.storedNormalAt sqrtf row col = 0) := by
  refine ⟨rfl, ?_, ?_⟩
  · intro row col
    by_cases hmask : img.mask.getD (row * img.width + col) 0 ≠ 1
    · left
      simp only [ImagePointCloud.storedNormalAt, if_pos hmask]
    · by_cases hmag : (1 / 1000000 : α) < sqrtf (img.rawNormalAt row col).normSq
      · right
        have hmm : sqrtf (img.rawNormalAt row col).normSq *
            sqrtf (img.rawNormalAt row col).normSq = (img.rawNormalAt row col).normSq :=
          hsq _ (Vec3.normSq_nonneg _)
        have hm0 : sqrtf (img.rawNormalAt row col).normSq ≠ 0 := by
          intro hcon
          rw [hcon] at hmag
          norm_num at hmag
        have hNS0 : (img.rawNormalAt row col).normSq ≠ 0 := by
          rw [← hmm]
          exact mul_ne_zero hm0 hm0
        simp only [ImagePointCloud.storedNormalAt, if_neg hmask, if_pos hmag]
        have hdiv : (⟨(img.rawNormalAt row col).x / sqrtf (img.rawNormalAt row col).normSq,
            (img.rawNormalAt row col).y / sqrtf (img.rawNormalAt row col).normSq,
            (img.rawNormalAt row col).z / sqrtf (img.rawNormalAt row col).normSq⟩ :
            Vec3 α).normSq =
            (img.rawNormalAt row col).normSq /
              (sqrtf (img.rawNormalAt row col).normSq *
                sqrtf (img.rawNormalAt row col).normSq) := by
          simp only [Vec3.normSq, Vec3.dot]
          field_simp
        rw [hdiv, hmm, div_self hNS0]
      · left
        simp only [ImagePointCloud.storedNormalAt, if_neg hmask, if_neg hmag]
  · intro row col hmask
    simp only [ImagePointCloud.storedNormalAt, if_pos hmask]

/-- Witness for C8: a 1×1 frame whose single valid pixel is at the origin; its
raw normal degenerates, so the stored normal is zero (hence zero-or-unit). -/
theorem C8_witness :
    (⟨1, 1, [⟨0, 0, 0⟩], [1], none, none⟩ : ImagePointCloud ℝ).storedNormalAt
        Real.sqrt 0 0 = 0 ∨
      ((⟨1, 1, [⟨0, 0, 0⟩], [1], none, none⟩ : ImagePointCloud ℝ).storedNormalAt
        Real.sqrt 0 0).normSq = 1 :=
  (C8_compute_normals_unit_or_zero Real.sqrt
    (⟨1, 1, [⟨0, 0, 0⟩], [1], none, none⟩ : ImagePointCloud ℝ)
    (fun a ha => Real.mul_self_sqrt ha) (by norm_num) (by norm_num)).2.1 0 0

end Align3d

namespace Align3d

variable {α : Type} [LinearOrderedField α]

/-- C1: For every rigid Transform T constructible by the library, composing
`T.inverse()` with `T` yields the identity transform within numerical epsilon
(exactly, in the exact-arithmetic model): the composite has zero translation,
and applying it to any 3D point `p` returns `p`.  This holds for *every*
transform value, hence in particular for every constructible one. -/
theorem C1_inverse_compose_eq_identity (t : Transform α) :
    ((t.inverse.mul t).trans = 0) ∧
    (∀ p : Vec3 α, (t.inverse.mul t).transform_vector p = p) := by
  constructor
  · simp only [Transform.inverse, Transform.mul, Quat.rotate, Quat.conj, Quat.vec,
      Vec3.cross, Vec3.smul_def, Vec3.add_def, Vec3.neg_def, Vec3.zero_def]
    refine Vec3.ext ?_ ?_ ?_ <;> ring
  · intro p
    simp only [Transform.inverse, Transform.mul, Transform.transform_vector, Quat.mul,
      Quat.rotate, Quat.conj, Quat.vec, Vec3.cross, Vec3.smul_def, Vec3.add_def,
      Vec3.neg_def]
    refine Vec3.ext ?_ ?_ ?_ <;> ring

end Align3d
